import Mathlib

/-!
Shallow embedding of `pywb/utils/loaders.py`: the `BlockLoader` dispatcher,
the `LimitReader` stream wrapper, the `HMACCookieMaker` signed-token maker
and the `SeekableTextFileReader`, together with theorems settling the
specification claims about them.

Byte strings are modelled as `List Nat`; file handles as a content/position
pair; the filesystem and the packaged-resource store as lookup functions
returning `Option` content.
-/

/-- A byte string, as produced by Python `read` calls. -/
abbrev Bytes := List Nat

/-- Models Python `s.startswith(p)` on the character sequence. -/
def strStartsWith (s p : String) : Bool :=
  p.data.isPrefixOf s.data

/-- Models Python `s[n:]`: drop the first `n` characters. -/
def strDrop (s : String) (n : Nat) : String :=
  String.mk (s.data.drop n)

/-- Models Python `c in s` for a single character. -/
def strContains (s : String) (c : Char) : Bool :=
  s.data.contains c

/-- Models `is_http` from the source: a purely syntactic prefix test. -/
def is_http (filename : String) : Bool :=
  strStartsWith filename "http://" || strStartsWith filename "https://"

/-- A local file handle: the byte content captured at open time plus the
current position (a freshly opened file gives position 0). -/
structure FileStream where
  content : Bytes
  pos : Nat
  deriving DecidableEq, Repr

/-- Models Python `file.read(n)`: for `n < 0` read to EOF, otherwise return
at most `n` bytes from the current position, advancing the position by the
number of bytes returned. -/
def FileStream.read (f : FileStream) (n : Int) : Bytes × FileStream :=
  let rest := f.content.drop f.pos
  let buff := if n < 0 then rest else rest.take n.toNat
  (buff, { f with pos := f.pos + buff.length })

/-- The longest prefix of a byte string up to and including the first
newline byte (10), as read by Python `file.readline()`. -/
def takeLine : Bytes → Bytes
  | [] => []
  | b :: rest => if b = 10 then [b] else b :: takeLine rest

/-- Models Python `file.readline(n)`: read up to and including the next
newline, returning at most `n` bytes when `n ≥ 0`. -/
def FileStream.readline (f : FileStream) (n : Int) : Bytes × FileStream :=
  let line := takeLine (f.content.drop f.pos)
  let buff := if n < 0 then line else line.take n.toNat
  (buff, { f with pos := f.pos + buff.length })

/-- Models Python `file.seek(offset)` (absolute from start). -/
def FileStream.seek (f : FileStream) (offset : Int) : FileStream :=
  { f with pos := offset.toNat }

/-- An abstract underlying byte stream, as used by `LimitReader`: a state
type with `read` and `readline` primitives taking an integer size. -/
structure RawStream (σ : Type) where
  read : σ → Int → Bytes × σ
  readline : σ → Int → Bytes × σ

/-- The `RawStream` view of a `FileStream`. -/
def fileRawStream : RawStream FileStream :=
  { read := FileStream.read, readline := FileStream.readline }

/-- A stream obeys its size argument: a read or readline with requested
size `n ≥ 0` returns at most `n` bytes (Python file objects do). -/
def RawStream.Bounded (rs : RawStream σ) : Prop :=
  ∀ s n, 0 ≤ n →
    ((rs.read s n).1.length : Int) ≤ n ∧ ((rs.readline s n).1.length : Int) ≤ n

/-- The `LimitReader` state: the wrapped stream state and the remaining
byte budget `self.limit`. -/
structure LimitReader (σ : Type) where
  stream : σ
  limit : Int
  deriving DecidableEq, Repr

/-- Models `LimitReader.__init__`: store the stream and the limit, then
`if not self.limit: self.limit = 1` (a zero limit is coerced to 1). -/
def LimitReader.init (stream : σ) (limit : Int) : LimitReader σ :=
  { stream := stream, limit := if limit = 0 then 1 else limit }

/-- The length actually requested from the underlying stream:
`length = min(length, self.limit) if length else self.limit`, where a
`None` or `0` argument is falsy and selects the full remaining limit. -/
def pyReqLen (length : Option Int) (limit : Int) : Int :=
  match length with
  | none => limit
  | some n => if n = 0 then limit else min n limit

/-- Models `LimitReader.read`: clamp the requested length, read from the
underlying stream, and decrement the limit by the bytes returned. -/
def LimitReader.read (rs : RawStream σ) (lr : LimitReader σ)
    (length : Option Int) : Bytes × LimitReader σ :=
  let len := pyReqLen length lr.limit
  let (buff, s) := rs.read lr.stream len
  (buff, { stream := s, limit := lr.limit - buff.length })

/-- Models `LimitReader.readline`: same budget logic over the underlying
`readline` primitive. -/
def LimitReader.readline (rs : RawStream σ) (lr : LimitReader σ)
    (length : Option Int) : Bytes × LimitReader σ :=
  let len := pyReqLen length lr.limit
  let (buff, s) := rs.readline lr.stream len
  (buff, { stream := s, limit := lr.limit - buff.length })

/-- One client call on a `LimitReader`: `read` or `readline`, with an
optional non-negative size argument. -/
inductive LRCall where
  | read (n : Option Nat)
  | readline (n : Option Nat)
  deriving DecidableEq, Repr

/-- Execute one `LRCall` on a `LimitReader`. -/
def LimitReader.step (rs : RawStream σ) (lr : LimitReader σ) :
    LRCall → Bytes × LimitReader σ
  | .read n => lr.read rs (n.map Int.ofNat)
  | .readline n => lr.readline rs (n.map Int.ofNat)

/-- Execute a sequence of calls, collecting the returned byte strings. -/
def LimitReader.run (rs : RawStream σ) (lr : LimitReader σ) :
    List LRCall → List Bytes × LimitReader σ
  | [] => ([], lr)
  | c :: cs =>
    let (buff, lr) := lr.step rs c
    let (outs, lr) := lr.run rs cs
    (buff :: outs, lr)

/-- Total number of bytes in a list of returned byte strings. -/
def totalBytes (outs : List Bytes) : Nat :=
  (outs.map List.length).sum

/-- Errors raised by `load_file_or_resource`: `ioError p` is the `IOError`
from the failed open of the local path `p`; `pkgError ns rest` is the failure of
`pkg_resources.resource_stream(ns, rest)`. -/
inductive LoadError where
  | ioError (path : String)
  | pkgError (ns rest : String)
  deriving DecidableEq, Repr

/-- The stream a `load` call hands back: either a raw file-like stream or
one wrapped in a `LimitReader`. -/
inductive LoadedStream where
  | raw (f : FileStream)
  | limited (lr : LimitReader FileStream)
  deriving DecidableEq, Repr

/-- Models Python `url.split('/', 1)` producing two parts: `some` of the
text before the first `/` and the text after it, or `none` when the url
contains no `/` (the one-element split). -/
def splitPkgPath (url : String) : Option (String × String) :=
  if strContains url '/' then
    some (String.mk (url.data.takeWhile (fun c => c ≠ '/')),
      String.mk ((url.data.dropWhile (fun c => c ≠ '/')).drop 1))
  else
    none

/-- The tail of `load_file_or_resource` after a stream was opened:
`if offset > 0: afile.seek(offset)`, then wrap in `LimitReader(afile,
length)` when `length >= 0`, else return the raw stream. -/
def finishOpen (afile : FileStream) (offset length : Int) : LoadedStream :=
  let afile := if offset > 0 then afile.seek offset else afile
  if 0 ≤ length then .limited (LimitReader.init afile length) else .raw afile

/-- Models `BlockLoader.load_file_or_resource`. `fs` is the local
filesystem (path to byte content of files that open successfully), `pkg`
the packaged-resource store (namespace and relative path to content).
If the url starts with `file://` the prefix is stripped and only `fs` is
consulted; otherwise a failed `fs` open falls back to splitting the url on
the first `/` and consulting `pkg`, re-raising the open error when there
is no `/` to split on. -/
def BlockLoader.load_file_or_resource (fs : String → Option Bytes)
    (pkg : String → String → Option Bytes) (url : String)
    (offset length : Int) : Except LoadError LoadedStream :=
  let file_only := strStartsWith url "file://"
  let url := if file_only then strDrop url 7 else url
  match fs url with
  | some content => .ok (finishOpen ⟨content, 0⟩ offset length)
  | none =>
    if file_only then
      .error (.ioError url)
    else
      match splitPkgPath url with
      | none => .error (.ioError url)
      | some (ns, rest) =>
        match pkg ns rest with
        | some content => .ok (finishOpen ⟨content, 0⟩ offset length)
        | none => .error (.pkgError ns rest)

/-- An outbound HTTP request as built by `load_http`: the url, the value
of the `Range` header, and the optional `Cookie` header. -/
structure HttpRequest where
  url : String
  range : String
  cookie : Option String
  deriving DecidableEq, Repr

/-- The request `load_http` issues: `Range` is
`bytes=<offset>-<offset+length-1>` when `length > 0` and the open-ended
`bytes=<offset>-` otherwise; `cookie` is the token of the configured
cookie maker (`self.cookie_maker.make()`), when one is set. -/
def BlockLoader.mk_http_request (cookie_maker : Option String)
    (url : String) (offset length : Int) : HttpRequest :=
  let range :=
    if length > 0 then
      "bytes=" ++ toString offset ++ "-" ++ toString (offset + length - 1)
    else
      "bytes=" ++ toString offset ++ "-"
  { url := url, range := range, cookie := cookie_maker }

/-- Models `BlockLoader.load_http`: build the range request, send it via
the transport (`urllib2.urlopen`) and return the response body stream
unwrapped. -/
def BlockLoader.load_http (cookie_maker : Option String)
    (transport : HttpRequest → FileStream) (url : String)
    (offset length : Int) : LoadedStream :=
  .raw (transport (BlockLoader.mk_http_request cookie_maker url offset length))

/-- Models `BlockLoader.load`: dispatch on `is_http(url)` between the HTTP
backend and the local/packaged backend. -/
def BlockLoader.load (fs : String → Option Bytes)
    (pkg : String → String → Option Bytes) (cookie_maker : Option String)
    (transport : HttpRequest → FileStream) (url : String)
    (offset length : Int) : Except LoadError LoadedStream :=
  if is_http url then
    .ok (BlockLoader.load_http cookie_maker transport url offset length)
  else
    BlockLoader.load_file_or_resource fs pkg url offset length

/-- The declared content length handed to `wrap_stream`: Python `None`, a
string, or an integer. -/
inductive PyLen where
  | pyNone
  | str (s : String)
  | int (n : Int)
  deriving DecidableEq, Repr

/-- The value of a decimal digit character, or `none`. -/
def decDigit (c : Char) : Option Nat :=
  if '0' ≤ c ∧ c ≤ '9' then some (c.toNat - '0'.toNat) else none

/-- Accumulate a run of decimal digits; `none` on any non-digit. -/
def digitsToNat (acc : Nat) : List Char → Option Nat
  | [] => some acc
  | c :: cs =>
    match decDigit c with
    | some d => digitsToNat (acc * 10 + d) cs
    | none => none

/-- Models Python `int(string)`: an optional sign followed by a non-empty
run of decimal digits; anything else raises `ValueError`, modelled as
`none`. (Python also strips surrounding whitespace, which changes no
claim here.) -/
def pyParseInt (s : String) : Option Int :=
  match s.data with
  | [] => none
  | '-' :: cs => if cs = [] then none else (digitsToNat 0 cs).map (fun n => -(n : Int))
  | '+' :: cs => if cs = [] then none else (digitsToNat 0 cs).map (fun n => (n : Int))
  | cs => (digitsToNat 0 cs).map (fun n => (n : Int))

/-- Models Python `int(content_length)` under `except (ValueError,
TypeError)`: `None` fails, a string is parsed as a (signed) decimal
integer, an integer passes through. -/
def PyLen.toIntOpt : PyLen → Option Int
  | .pyNone => none
  | .str s => pyParseInt s
  | .int n => some n

/-- Models `LimitReader.wrap_stream`: if the declared length converts to
an int greater than 0, wrap the stream in a `LimitReader` of that size;
on conversion failure or a non-positive value return the stream
unaltered. -/
def LimitReader.wrap_stream (stream : σ) (content_length : PyLen) :
    σ ⊕ LimitReader σ :=
  match content_length.toIntOpt with
  | some n => if n > 0 then .inr (LimitReader.init stream n) else .inl stream
  | none => .inl stream

/-- The `HMACCookieMaker` configuration: secret key, cookie name and
duration in seconds, all set at construction. -/
structure HMACCookieMaker where
  key : String
  name : String
  duration : Nat
  deriving DecidableEq, Repr

/-- The message body signed by `make`: `extra_id + '-' + expire` when
`extra_id` is non-empty, else just `expire`. -/
def HMACCookieMaker.msg (extra_id expire : String) : String :=
  if extra_id ≠ "" then extra_id ++ "-" ++ expire else expire

/-- Models `HMACCookieMaker.make`. Time is an explicit `now` argument (the
integral seconds of `time.time()`); `hmacHex key msg` abstracts
`hmac.new(key, msg).hexdigest()`. -/
def HMACCookieMaker.make (hmacHex : String → String → String)
    (m : HMACCookieMaker) (now : Nat) (extra_id : String) : String :=
  let expire := toString (now + m.duration)
  let msg := HMACCookieMaker.msg extra_id expire
  let hexdigest := hmacHex m.key msg
  if extra_id ≠ "" then
    m.name ++ "-" ++ extra_id ++ "=" ++ expire ++ "-" ++ hexdigest
  else
    m.name ++ "=" ++ expire ++ "-" ++ hexdigest

/-- The `SeekableTextFileReader` state: the file handle (content plus
position), the filename, and the byte size recorded at open time via
`os.path.getsize`. -/
structure SeekableTextFileReader where
  fh : FileStream
  filename : String
  size : Nat
  deriving DecidableEq, Repr

/-- Models `SeekableTextFileReader.__init__`: open the file and record its
size; `none` when the file does not exist. -/
def SeekableTextFileReader.open (fs : String → Option Bytes)
    (filename : String) : Option SeekableTextFileReader :=
  (fs filename).map fun content => ⟨⟨content, 0⟩, filename, content.length⟩

/-- Models `SeekableTextFileReader.getsize`. -/
def SeekableTextFileReader.getsize (r : SeekableTextFileReader) : Nat :=
  r.size

/-- Models `SeekableTextFileReader.read`: read the remaining content. -/
def SeekableTextFileReader.read (r : SeekableTextFileReader) :
    Bytes × SeekableTextFileReader :=
  let (buff, fh) := r.fh.read (-1)
  (buff, { r with fh := fh })

/-- Models `SeekableTextFileReader.readline`. -/
def SeekableTextFileReader.readline (r : SeekableTextFileReader) :
    Bytes × SeekableTextFileReader :=
  let (buff, fh) := r.fh.readline (-1)
  (buff, { r with fh := fh })

/-- Models `SeekableTextFileReader.seek`: absolute seek of the handle. -/
def SeekableTextFileReader.seek (r : SeekableTextFileReader) (offset : Int) :
    SeekableTextFileReader :=
  { r with fh := r.fh.seek offset }

/-- One call on a `SeekableTextFileReader`. -/
inductive STFRCall where
  | read
  | readline
  | seek (offset : Int)
  deriving DecidableEq, Repr

/-- Execute a sequence of reader calls, keeping the resulting state. -/
def SeekableTextFileReader.run (r : SeekableTextFileReader) :
    List STFRCall → SeekableTextFileReader
  | [] => r
  | .read :: cs => (r.read.2).run cs
  | .readline :: cs => (r.readline.2).run cs
  | .seek o :: cs => (r.seek o).run cs

/-- A tiny concrete filesystem: one file `f` holding three bytes. -/
def fsDemo : String → Option Bytes :=
  fun p => if p = "f" then some [7, 8, 9] else none

/-- A tiny concrete packaged-resource store. -/
def pkgDemo : String → String → Option Bytes :=
  fun ns rest => if ns = "mypkg" && rest = "data/x" then some [1, 2] else none

/-- A concrete HTTP transport returning a fixed response body. -/
def transportDemo : HttpRequest → FileStream :=
  fun _ => ⟨[4, 5, 6], 0⟩

/-- A concrete stand-in for `hmac.new(key, msg).hexdigest()`. -/
def hmacDemo : String → String → String :=
  fun key msg => key ++ "|" ++ msg

/-! ### Helper lemmas -/

/-- A size argument coming from a client call (`None` or a natural number)
yields a requested length between 0 and the current limit, when the limit
is non-negative. -/
theorem pyReqLen_bounds (limit : Int) (hl : 0 ≤ limit) (n : Option Nat) :
    0 ≤ pyReqLen (n.map Int.ofNat) limit ∧ pyReqLen (n.map Int.ofNat) limit ≤ limit := by
  cases n with
  | none => exact ⟨hl, le_refl _⟩
  | some k =>
    have hm : (some k).map Int.ofNat = some (Int.ofNat k) := rfl
    rw [hm]
    simp only [pyReqLen]
    by_cases hk : (Int.ofNat k : Int) = 0
    · rw [if_pos hk]
      exact ⟨hl, le_refl _⟩
    · rw [if_neg hk]
      exact ⟨le_min (Int.ofNat_nonneg k) hl, min_le_right _ _⟩

/-- `FileStream` reads obey their size argument. -/
theorem fileRawStream_bounded : fileRawStream.Bounded := by
  intro s n hn
  constructor
  · simp only [fileRawStream, FileStream.read]
    rw [if_neg (by omega)]
    calc ((List.take n.toNat (s.content.drop s.pos)).length : Int)
        ≤ (n.toNat : Int) := by
          exact_mod_cast List.length_take_le _ _
      _ = n := Int.toNat_of_nonneg hn
  · simp only [fileRawStream, FileStream.readline]
    rw [if_neg (by omega)]
    calc ((List.take n.toNat (takeLine (s.content.drop s.pos))).length : Int)
        ≤ (n.toNat : Int) := by
          exact_mod_cast List.length_take_le _ _
      _ = n := Int.toNat_of_nonneg hn

/-- One step on a `LimitReader` with a bounded underlying stream and a
non-negative budget: the bytes returned fit in the budget, and the new
budget is the old one minus the bytes returned. -/
theorem LimitReader.step_spec (rs : RawStream σ) (h : rs.Bounded)
    (lr : LimitReader σ) (hl : 0 ≤ lr.limit) (c : LRCall) :
    ((lr.step rs c).1.length : Int) ≤ lr.limit ∧
      (lr.step rs c).2.limit = lr.limit - (lr.step rs c).1.length := by
  cases c with
  | read n =>
    obtain ⟨h0, h1⟩ := pyReqLen_bounds lr.limit hl n
    have hb := (h lr.stream (pyReqLen (n.map Int.ofNat) lr.limit) h0).1
    exact ⟨le_trans hb h1, rfl⟩
  | readline n =>
    obtain ⟨h0, h1⟩ := pyReqLen_bounds lr.limit hl n
    have hb := (h lr.stream (pyReqLen (n.map Int.ofNat) lr.limit) h0).2
    exact ⟨le_trans hb h1, rfl⟩

/-- Running any call sequence from a non-negative budget keeps the budget
non-negative, and the total bytes returned equal the budget consumed. -/
theorem LimitReader.run_spec (rs : RawStream σ) (h : rs.Bounded)
    (calls : List LRCall) (lr : LimitReader σ) (hl : 0 ≤ lr.limit) :
    0 ≤ (lr.run rs calls).2.limit ∧
      (totalBytes (lr.run rs calls).1 : Int) =
        lr.limit - (lr.run rs calls).2.limit := by
  induction calls generalizing lr with
  | nil => exact ⟨hl, by simp [LimitReader.run, totalBytes]⟩
  | cons c cs ih =>
    obtain ⟨hle, heq⟩ := lr.step_spec rs h hl c
    have hl2 : 0 ≤ (lr.step rs c).2.limit := by omega
    obtain ⟨ih0, ih1⟩ := ih (lr.step rs c).2 hl2
    simp only [LimitReader.run, totalBytes, List.map_cons, List.sum_cons]
    refine ⟨ih0, ?_⟩
    push_cast
    push_cast [totalBytes] at ih1
    omega

/-- A step from an exhausted budget returns no bytes and keeps the budget
at zero. -/
theorem LimitReader.step_exhausted (rs : RawStream σ) (h : rs.Bounded)
    (lr : LimitReader σ) (hl : lr.limit = 0) (c : LRCall) :
    (lr.step rs c).1 = ([] : Bytes) ∧ (lr.step rs c).2.limit = 0 := by
  obtain ⟨hle, hdec⟩ := lr.step_spec rs h (le_of_eq hl.symm) c
  have hnil : (lr.step rs c).1 = [] := List.length_eq_zero.mp (by omega)
  refine ⟨hnil, ?_⟩
  rw [hdec, hnil, hl]
  simp

/-- Starting from an exhausted budget, every call in any sequence returns
the empty byte string. -/
theorem LimitReader.run_exhausted (rs : RawStream σ) (h : rs.Bounded)
    (calls : List LRCall) (lr : LimitReader σ) (hl : lr.limit = 0) :
    ∀ b ∈ (lr.run rs calls).1, b = ([] : Bytes) := by
  induction calls generalizing lr with
  | nil => intro b hb; simp [LimitReader.run] at hb
  | cons d ds ih =>
    intro b hb
    obtain ⟨hnil, hz⟩ := lr.step_exhausted rs h hl d
    simp only [LimitReader.run, List.mem_cons] at hb
    rcases hb with hb | hb
    · rw [hb]; exact hnil
    · exact ih (lr.step rs d).2 hz b hb

/-! ### Claim theorems -/

/-- C3: for every underlying stream `s`, `LimitReader(s, 0)` is the very
same state as `LimitReader(s, 1)` (the constructor coerces a zero limit to
1), and in particular `LimitReader(s, 0).read(100)` returns at most 1 byte
rather than 0 bytes. -/
theorem limitReader_zero_limit_as_one {σ : Type} (s : σ) (rs : RawStream σ)
    (h : rs.Bounded) :
    LimitReader.init s 0 = LimitReader.init s 1 ∧
      ((LimitReader.init s 0).read rs (some 100)).1.length ≤ 1 := by
  refine ⟨by simp [LimitReader.init], ?_⟩
  have hb := (h s 1 (by norm_num)).1
  have hr : ((LimitReader.init s 0).read rs (some 100)).1 = (rs.read s 1).1 := by
    simp [LimitReader.init, LimitReader.read, pyReqLen]
  rw [hr]
  exact_mod_cast hb

/-- C3 witness: the coercion and the 1-byte bound at a concrete file
stream. -/
theorem limitReader_zero_limit_as_one_witness :
    LimitReader.init (⟨[7, 8, 9], 0⟩ : FileStream) 0
        = LimitReader.init ⟨[7, 8, 9], 0⟩ 1 ∧
      ((LimitReader.init (⟨[7, 8, 9], 0⟩ : FileStream) 0).read fileRawStream
          (some 100)).1.length ≤ 1 :=
  limitReader_zero_limit_as_one ⟨[7, 8, 9], 0⟩ fileRawStream fileRawStream_bounded

/-- C4: for a `LimitReader` over a stream that returns at most the
requested number of bytes, each `read`/`readline` step decrements the
budget by exactly the number of bytes returned, the budget never
increases, and once the budget is zero every further call returns the
empty byte string. -/
theorem limitReader_budget_invariant {σ : Type} (rs : RawStream σ)
    (h : rs.Bounded) (lr : LimitReader σ) (c : LRCall) (calls : List LRCall) :
    (lr.step rs c).2.limit = lr.limit - ((lr.step rs c).1.length : Int) ∧
      (lr.step rs c).2.limit ≤ lr.limit ∧
      (lr.limit = 0 → ∀ b ∈ (lr.run rs calls).1, b = ([] : Bytes)) := by
  have h1 : (lr.step rs c).2.limit = lr.limit - ((lr.step rs c).1.length : Int) := by
    cases c <;> rfl
  refine ⟨h1, by omega, ?_⟩
  intro hl0
  exact LimitReader.run_exhausted rs h calls lr hl0

/-- C4 witness: the budget accounting at a concrete reader and call
sequence. -/
theorem limitReader_budget_invariant_witness :
    ((⟨⟨[7, 8, 9], 0⟩, 2⟩ : LimitReader FileStream).step fileRawStream
          (.read (some 1))).2.limit
        = (⟨⟨[7, 8, 9], 0⟩, 2⟩ : LimitReader FileStream).limit
          - (((⟨⟨[7, 8, 9], 0⟩, 2⟩ : LimitReader FileStream).step fileRawStream
              (.read (some 1))).1.length : Int) ∧
      ((⟨⟨[7, 8, 9], 0⟩, 2⟩ : LimitReader FileStream).step fileRawStream
          (.read (some 1))).2.limit
        ≤ (⟨⟨[7, 8, 9], 0⟩, 2⟩ : LimitReader FileStream).limit ∧
      ((⟨⟨[7, 8, 9], 0⟩, 2⟩ : LimitReader FileStream).limit = 0 →
        ∀ b ∈ ((⟨⟨[7, 8, 9], 0⟩, 2⟩ : LimitReader FileStream).run fileRawStream
            [.readline none]).1, b = ([] : Bytes)) :=
  limitReader_budget_invariant fileRawStream fileRawStream_bounded
    ⟨⟨[7, 8, 9], 0⟩, 2⟩ (.read (some 1)) [.readline none]

/-- C10: with a positive remaining budget, an explicit size argument of 0
is falsy and is treated like an omitted argument: the reader requests the
full remaining budget from the underlying stream. -/
theorem limitReader_read_zero_full_budget {σ : Type} (rs : RawStream σ)
    (lr : LimitReader σ) (h : 0 < lr.limit) :
    pyReqLen (some 0) lr.limit = lr.limit ∧
      lr.read rs (some 0) = lr.read rs none ∧
      lr.readline rs (some 0) = lr.readline rs none := by
  refine ⟨by simp [pyReqLen], by simp [LimitReader.read, pyReqLen],
    by simp [LimitReader.readline, pyReqLen]⟩

/-- C10 witness: `read(0)` at a concrete reader with budget 2. -/
theorem limitReader_read_zero_full_budget_witness :
    (0 : Int) < 2 ∧
      (pyReqLen (some 0) (⟨⟨[1, 2], 0⟩, 2⟩ : LimitReader FileStream).limit
          = (⟨⟨[1, 2], 0⟩, 2⟩ : LimitReader FileStream).limit ∧
        (⟨⟨[1, 2], 0⟩, 2⟩ : LimitReader FileStream).read fileRawStream (some 0)
          = (⟨⟨[1, 2], 0⟩, 2⟩ : LimitReader FileStream).read fileRawStream none ∧
        (⟨⟨[1, 2], 0⟩, 2⟩ : LimitReader FileStream).readline fileRawStream (some 0)
          = (⟨⟨[1, 2], 0⟩, 2⟩ : LimitReader FileStream).readline fileRawStream none) :=
  ⟨by norm_num,
    limitReader_read_zero_full_budget fileRawStream ⟨⟨[1, 2], 0⟩, 2⟩ (by norm_num)⟩

/-- C5: `wrap_stream` never raises; it wraps the stream in a
`LimitReader` exactly when the declared length converts to a positive
int, and returns the stream unmodified on `None`, a non-numeric string,
zero, or a negative value. -/
theorem limitReader_wrap_stream_spec {σ : Type} (s : σ) (v : PyLen) :
    (∀ n, v.toIntOpt = some n → 0 < n →
        LimitReader.wrap_stream s v = .inr (LimitReader.init s n)) ∧
      (∀ n, v.toIntOpt = some n → n ≤ 0 →
        LimitReader.wrap_stream s v = .inl s) ∧
      (v.toIntOpt = none → LimitReader.wrap_stream s v = .inl s) := by
  refine ⟨?_, ?_, ?_⟩
  · intro n hn hpos
    simp [LimitReader.wrap_stream, hn, hpos]
  · intro n hn hneg
    simp [LimitReader.wrap_stream, hn, not_lt.mpr hneg]
  · intro hn
    simp [LimitReader.wrap_stream, hn]

/-- C5 witness: `"50"` wraps with limit 50, `"0"` and `"abc"` leave the
stream unmodified. -/
theorem limitReader_wrap_stream_spec_witness :
    LimitReader.wrap_stream (⟨[7, 8, 9], 0⟩ : FileStream) (.str "50")
        = .inr (LimitReader.init ⟨[7, 8, 9], 0⟩ 50) ∧
      LimitReader.wrap_stream (⟨[7, 8, 9], 0⟩ : FileStream) (.str "0")
        = .inl ⟨[7, 8, 9], 0⟩ ∧
      LimitReader.wrap_stream (⟨[7, 8, 9], 0⟩ : FileStream) (.str "abc")
        = .inl ⟨[7, 8, 9], 0⟩ :=
  ⟨(limitReader_wrap_stream_spec _ _).1 50 (by decide) (by norm_num),
    (limitReader_wrap_stream_spec _ _).2.1 0 (by decide) (le_refl 0),
    (limitReader_wrap_stream_spec _ _).2.2 (by decide)⟩

/-- C6: the outbound Range header is `bytes=o-(o+l-1)` when `l > 0` and
the open-ended `bytes=o-` when `l ≤ 0`. -/
theorem load_http_range_header (cm : Option String) (url : String) (o l : Int) :
    (0 < l → (BlockLoader.mk_http_request cm url o l).range
        = "bytes=" ++ toString o ++ "-" ++ toString (o + l - 1)) ∧
      (l ≤ 0 → (BlockLoader.mk_http_request cm url o l).range
        = "bytes=" ++ toString o ++ "-") := by
  constructor
  · intro hpos
    simp [BlockLoader.mk_http_request, hpos]
  · intro hneg
    simp [BlockLoader.mk_http_request, not_lt.mpr hneg]

/-- C6 witness: the Range header at offset 3, length 5 and at length 0. -/
theorem load_http_range_header_witness :
    ((0 : Int) < 5 ∧
        (BlockLoader.mk_http_request none "http://h" 3 5).range
          = "bytes=" ++ toString (3 : Int) ++ "-" ++ toString ((3 : Int) + 5 - 1)) ∧
      ((0 : Int) ≤ 0 ∧
        (BlockLoader.mk_http_request none "http://h" 3 0).range
          = "bytes=" ++ toString (3 : Int) ++ "-") :=
  ⟨⟨by norm_num, (load_http_range_header none "http://h" 3 5).1 (by norm_num)⟩,
    ⟨le_refl 0, (load_http_range_header none "http://h" 3 0).2 (le_refl 0)⟩⟩

/-- C7: an HTTP(S) load returns the response body stream from the transport raw,
never wrapped in a `LimitReader`, even when a finite length was
requested. -/
theorem load_http_returns_unwrapped (fs : String → Option Bytes)
    (pkg : String → String → Option Bytes) (cm : Option String)
    (transport : HttpRequest → FileStream) (url : String) (o l : Int)
    (h : is_http url = true) :
    BlockLoader.load fs pkg cm transport url o l
      = .ok (.raw (transport (BlockLoader.mk_http_request cm url o l))) := by
  simp [BlockLoader.load, h, BlockLoader.load_http]

/-- C7 witness: a concrete HTTP load with finite length 5 comes back
raw. -/
theorem load_http_returns_unwrapped_witness :
    is_http "http://a" = true ∧
      BlockLoader.load fsDemo pkgDemo none transportDemo "http://a" 0 5
        = .ok (.raw (transportDemo (BlockLoader.mk_http_request none "http://a" 0 5))) :=
  ⟨by decide,
    load_http_returns_unwrapped fsDemo pkgDemo none transportDemo "http://a" 0 5
      (by decide)⟩

/-- C2: fallback ordering of the local/packaged backend. A `file://`
identifier is stripped and an open failure propagates with no
packaged-resource fallback (for every `pkg`); a bare identifier that
fails to open is split on its first `/` and resolved as a packaged
resource, and with no `/` the original open error propagates. -/
theorem load_file_or_resource_fallback (fs : String → Option Bytes)
    (pkg : String → String → Option Bytes) (url : String) (o l : Int) :
    (strStartsWith url "file://" = true → fs (strDrop url 7) = none →
        BlockLoader.load_file_or_resource fs pkg url o l
          = .error (.ioError (strDrop url 7))) ∧
      (strStartsWith url "file://" = false → fs url = none →
        splitPkgPath url = none →
        BlockLoader.load_file_or_resource fs pkg url o l
          = .error (.ioError url)) ∧
      (∀ ns rest content, strStartsWith url "file://" = false → fs url = none →
        splitPkgPath url = some (ns, rest) → pkg ns rest = some content →
        BlockLoader.load_file_or_resource fs pkg url o l
          = .ok (finishOpen ⟨content, 0⟩ o l)) ∧
      (∀ ns rest, strStartsWith url "file://" = false → fs url = none →
        splitPkgPath url = some (ns, rest) → pkg ns rest = none →
        BlockLoader.load_file_or_resource fs pkg url o l
          = .error (.pkgError ns rest)) := by
  refine ⟨?_, ?_, ?_, ?_⟩
  · intro hfo hfs
    simp [BlockLoader.load_file_or_resource, hfo, hfs]
  · intro hfo hfs hsplit
    simp [BlockLoader.load_file_or_resource, hfo, hfs, hsplit]
  · intro ns rest content hfo hfs hsplit hpkg
    simp [BlockLoader.load_file_or_resource, hfo, hfs, hsplit, hpkg]
  · intro ns rest hfo hfs hsplit hpkg
    simp [BlockLoader.load_file_or_resource, hfo, hfs, hsplit, hpkg]

/-- C2 witness: the three outcomes at concrete identifiers over the demo
filesystem and package store. -/
theorem load_file_or_resource_fallback_witness :
    BlockLoader.load_file_or_resource fsDemo pkgDemo "file://nofile" 0 (-1)
        = .error (.ioError (strDrop "file://nofile" 7)) ∧
      BlockLoader.load_file_or_resource fsDemo pkgDemo "nofile" 0 (-1)
        = .error (.ioError "nofile") ∧
      BlockLoader.load_file_or_resource fsDemo pkgDemo "mypkg/data/x" 0 (-1)
        = .ok (finishOpen ⟨[1, 2], 0⟩ 0 (-1)) :=
  ⟨(load_file_or_resource_fallback fsDemo pkgDemo "file://nofile" 0 (-1)).1
      (by decide) (by decide),
    (load_file_or_resource_fallback fsDemo pkgDemo "nofile" 0 (-1)).2.1
      (by decide) (by decide) (by decide),
    (load_file_or_resource_fallback fsDemo pkgDemo "mypkg/data/x" 0 (-1)).2.2.1
      "mypkg" "data/x" [1, 2] (by decide) (by decide) (by decide) (by decide)⟩

/-- C9: `getsize` equals the byte size of the file recorded at open time,
and it is unchanged by any subsequent sequence of `read`, `readline` and
`seek` calls. -/
theorem seekable_getsize_immutable (fs : String → Option Bytes)
    (name : String) (content : Bytes) (calls : List STFRCall)
    (h : fs name = some content) :
    SeekableTextFileReader.open fs name
        = some ⟨⟨content, 0⟩, name, content.length⟩ ∧
      ((⟨⟨content, 0⟩, name, content.length⟩ : SeekableTextFileReader).run
          calls).getsize = content.length := by
  refine ⟨by simp [SeekableTextFileReader.open, h], ?_⟩
  have hrun : ∀ (cs : List STFRCall) (r : SeekableTextFileReader),
      (r.run cs).size = r.size := by
    intro cs
    induction cs with
    | nil => intro r; rfl
    | cons d ds ih =>
      intro r
      cases d <;>
        simp [SeekableTextFileReader.run, ih, SeekableTextFileReader.read,
          SeekableTextFileReader.readline, SeekableTextFileReader.seek]
  simp [SeekableTextFileReader.getsize, hrun]

/-- C9 witness: the size of the demo file stays 3 across a read, a seek
and a readline. -/
theorem seekable_getsize_immutable_witness :
    SeekableTextFileReader.open fsDemo "f"
        = some ⟨⟨[7, 8, 9], 0⟩, "f", [7, 8, 9].length⟩ ∧
      ((⟨⟨[7, 8, 9], 0⟩, "f", [7, 8, 9].length⟩ : SeekableTextFileReader).run
          [.read, .seek 1, .readline]).getsize = [7, 8, 9].length :=
  seekable_getsize_immutable fsDemo "f" [7, 8, 9] [.read, .seek 1, .readline]
    (by decide)

/-- Appending a fixed suffix is injective on strings. -/
theorem str_append_cancel_right (a b c : String) (h : a ++ c = b ++ c) :
    a = b := by
  have hd : a.data ++ c.data = b.data ++ c.data := by
    rw [← String.data_append a c, ← String.data_append b c, h]
  have hab := List.append_cancel_right hd
  cases a; cases b
  exact congrArg String.mk hab

/-- A non-empty string has non-zero length. -/
theorem str_length_ne_zero (s : String) (h : s ≠ "") : s.length ≠ 0 := by
  cases s with
  | mk l =>
    cases l with
    | nil => exact absurd rfl h
    | cons c cs => simp [String.length]

/-- At a fixed expiry string, distinct secondary ids give distinct signed
message bodies. -/
theorem msg_injective (a b e : String) (hab : a ≠ b) :
    HMACCookieMaker.msg a e ≠ HMACCookieMaker.msg b e := by
  by_cases ha : a = "" <;> by_cases hb : b = ""
  · exact absurd (ha.trans hb.symm) hab
  · subst ha
    simp only [HMACCookieMaker.msg, ne_eq, not_true_eq_false, if_false,
      hb, not_false_eq_true, if_true]
    intro heq
    have hlen := congrArg String.length heq
    rw [String.length_append (b ++ "-") e, String.length_append b "-"] at hlen
    have h1 : ("-" : String).length = 1 := rfl
    omega
  · subst hb
    simp only [HMACCookieMaker.msg, ne_eq, not_true_eq_false, if_false,
      ha, not_false_eq_true, if_true]
    intro heq
    have hlen := congrArg String.length heq
    rw [String.length_append (a ++ "-") e, String.length_append a "-"] at hlen
    have h1 : ("-" : String).length = 1 := rfl
    omega
  · simp only [HMACCookieMaker.msg, ne_eq, ha, hb, not_false_eq_true, if_true]
    intro heq
    have h2 := str_append_cancel_right _ _ _ heq
    have h3 := str_append_cancel_right _ _ _ h2
    exact hab h3

/-- C8: with the same key, name and duration, two `make` calls observing
the same second and the same secondary id produce byte-identical tokens;
at the same second, different secondary ids sign different message
bodies. -/
theorem hmac_cookie_make_spec (hmacHex : String → String → String)
    (m1 m2 : HMACCookieMaker) (now : Nat) (a b : String)
    (hk : m1.key = m2.key) (hn : m1.name = m2.name)
    (hd : m1.duration = m2.duration) :
    m1.make hmacHex now a = m2.make hmacHex now a ∧
      (a ≠ b →
        HMACCookieMaker.msg a (toString (now + m1.duration))
          ≠ HMACCookieMaker.msg b (toString (now + m1.duration))) := by
  constructor
  · obtain ⟨k1, n1, d1⟩ := m1
    obtain ⟨k2, n2, d2⟩ := m2
    simp only at hk hn hd
    subst hk; subst hn; subst hd
    rfl
  · intro hab
    exact msg_injective a b _ hab

/-- C8 witness: two identically configured makers at second 100. -/
theorem hmac_cookie_make_spec_witness :
    HMACCookieMaker.make hmacDemo ⟨"k", "n", 10⟩ 100 "u1"
        = HMACCookieMaker.make hmacDemo ⟨"k", "n", 10⟩ 100 "u1" ∧
      ("u1" ≠ "u2" →
        HMACCookieMaker.msg "u1"
            (toString (100 + (⟨"k", "n", 10⟩ : HMACCookieMaker).duration))
          ≠ HMACCookieMaker.msg "u2"
            (toString (100 + (⟨"k", "n", 10⟩ : HMACCookieMaker).duration))) :=
  hmac_cookie_make_spec hmacDemo ⟨"k", "n", 10⟩ ⟨"k", "n", 10⟩ 100 "u1" "u2"
    rfl rfl rfl

/-- A path that opens locally yields `finishOpen` on the opened handle. -/
theorem load_file_or_resource_opened (fs : String → Option Bytes)
    (pkg : String → String → Option Bytes) (url : String) (o l : Int)
    (content : Bytes)
    (hopen : fs (if strStartsWith url "file://" then strDrop url 7 else url)
      = some content) :
    BlockLoader.load_file_or_resource fs pkg url o l
      = .ok (finishOpen ⟨content, 0⟩ o l) := by
  simp [BlockLoader.load_file_or_resource, hopen]

/-- C1 (amended): a local load with `l ≥ 0` returns a
`LimitReader`-wrapped stream yielding at most `max l 1` bytes in total
across all reads — at most `l` bytes whenever `l ≥ 1`; at `l = 0` the
constructor coerces the limit to 1, so one byte may still be yielded. -/
theorem load_local_reads_at_most (fs : String → Option Bytes)
    (pkg : String → String → Option Bytes) (cm : Option String)
    (transport : HttpRequest → FileStream) (p : String) (o l : Int)
    (content : Bytes) (calls : List LRCall)
    (hhttp : is_http p = false) (h0 : 0 ≤ l)
    (hopen : fs (if strStartsWith p "file://" then strDrop p 7 else p)
      = some content) :
    BlockLoader.load fs pkg cm transport p o l
        = .ok (.limited (LimitReader.init
            (if o > 0 then FileStream.seek ⟨content, 0⟩ o else ⟨content, 0⟩) l)) ∧
      (totalBytes ((LimitReader.init
            (if o > 0 then FileStream.seek ⟨content, 0⟩ o else ⟨content, 0⟩) l).run
          fileRawStream calls).1 : Int) ≤ max l 1 := by
  constructor
  · rw [BlockLoader.load, if_neg (by simp [hhttp]),
      load_file_or_resource_opened fs pkg p o l content hopen]
    simp [finishOpen, h0]
  · have hinit : (LimitReader.init
        (if o > 0 then FileStream.seek ⟨content, 0⟩ o else ⟨content, 0⟩) l).limit
        = if l = 0 then 1 else l := rfl
    have hnn : 0 ≤ (LimitReader.init
        (if o > 0 then FileStream.seek ⟨content, 0⟩ o else ⟨content, 0⟩) l).limit := by
      rw [hinit]; split <;> omega
    obtain ⟨hfin, htot⟩ :=
      LimitReader.run_spec fileRawStream fileRawStream_bounded calls _ hnn
    have hle : (LimitReader.init
        (if o > 0 then FileStream.seek ⟨content, 0⟩ o else ⟨content, 0⟩) l).limit
        ≤ max l 1 := by
      rw [hinit]
      rcases eq_or_ne l 0 with hz | hz
      · simp [hz]
      · rw [if_neg hz]; exact le_max_left l 1
    rw [htot]
    exact le_trans (sub_le_self _ hfin) hle

/-- C1 counterexample: loading the 3-byte file `f` with offset 0 and
length 0 hands back a stream whose first `read()` yields 1 byte — more
than the `l = 0` bytes the claim allows. -/
theorem load_length_zero_yields_a_byte :
    BlockLoader.load fsDemo pkgDemo none transportDemo "f" 0 0
        = .ok (.limited ⟨⟨[7, 8, 9], 0⟩, 1⟩) ∧
      totalBytes (((⟨⟨[7, 8, 9], 0⟩, 1⟩ : LimitReader FileStream).run fileRawStream
          [.read none]).1) = 1 :=
  ⟨rfl, rfl⟩

/-- C1 witness: a length-2 load of the demo file yields at most 2 bytes
over two reads. -/
theorem load_local_reads_at_most_witness :
    BlockLoader.load fsDemo pkgDemo none transportDemo "f" 0 2
        = .ok (.limited (LimitReader.init
            (if (0 : Int) > 0 then FileStream.seek ⟨[7, 8, 9], 0⟩ 0
              else ⟨[7, 8, 9], 0⟩) 2)) ∧
      (totalBytes ((LimitReader.init
            (if (0 : Int) > 0 then FileStream.seek ⟨[7, 8, 9], 0⟩ 0
              else ⟨[7, 8, 9], 0⟩) 2).run
          fileRawStream [.read none, .read none]).1 : Int) ≤ max 2 1 :=
  load_local_reads_at_most fsDemo pkgDemo none transportDemo "f" 0 2 [7, 8, 9]
    [.read none, .read none] (by decide) (by norm_num) (by decide)
